import Mathlib

/-!
# Pin ingestion and snapshot search handlers

A shallow embedding of `Cafe.pin` (cafe/pin.go) and of
`api.searchThreadSnapshots` (core/api_snapshots.go).

A handler run is a list of events in program order: the responses it writes,
the store operations it performs, and the points of its control flow the
properties speak about.  The collaborators (token validation, the object
store, the network search) are parameters of the handlers.
-/

namespace Textile

/-! ## Data of cafe/pin.go -/

/-- A byte string (Go `[]byte` or the content behind an `io.Reader`). -/
abbrev Bytes := String

/-- A JSON object with string values, as its list of (key, value) members. -/
abbrev JObject := List (String × String)

/-- The struct `PinResponse`: both fields are `*string` with `omitempty`. -/
structure PinResponse where
  Id : Option String
  Error : Option String
deriving DecidableEq, Repr

/-- JSON encoding of a `PinResponse`: a nil field is omitted (`omitempty`). -/
def PinResponse.toJSON (p : PinResponse) : JObject :=
  (match p.Id with
    | some v => [("id", v)]
    | none => []) ++
  (match p.Error with
    | some v => [("error", v)]
    | none => [])

def errForbidden : String := "forbidden"

def forbiddenResponse : PinResponse := ⟨none, some errForbidden⟩

def ErrUnauthorized : String := "unauthorized"

def unauthorizedResponse : PinResponse := ⟨none, some ErrUnauthorized⟩

/-- The value `gin.H{"error": msg}`. -/
def ginErrorH (msg : String) : JObject := [("error", msg)]

def StatusCreated : Nat := 201
def StatusBadRequest : Nat := 400
def StatusUnauthorized : Nat := 401
def StatusForbidden : Nat := 403
def StatusInternalServerError : Nat := 500

/-- Modelled from the spec: the errors of `jwt.Validate` (package jwt of this
repository, not among the sources).  The verifier "returns success or one of
{NoToken, Expired, Invalid}"; success is the nil error, `none` below. -/
inductive JwtError where
  | ErrNoToken
  | ErrExpired
  | ErrInvalid
deriving DecidableEq, Repr

/-- The constants `tar.TypeReg` and `tar.TypeDir` of archive/tar. -/
def TypeReg : Char := '0'
def TypeDir : Char := '5'

/-- A tar header, with the two fields the handler reads. -/
structure Header where
  Name : String
  Typeflag : Char
deriving DecidableEq, Repr

/-- One archive entry: the header returned by `tr.Next()` and the bytes that
`tr` then reads for it. -/
structure Entry where
  header : Header
  content : Bytes
deriving DecidableEq, Repr

/-- What the tar reader yields over a request body: the entries returned by
the successive successful calls of `tr.Next()`, and how the stream ends:
`none` for `io.EOF`, `some msg` for any other error of `tr.Next()`. -/
structure TarStream where
  entries : List Entry
  err : Option String
deriving DecidableEq, Repr

/-- The part of a `gin.Context` the handler reads.  `Header.Get` gives the
empty string for an absent header.  `gzip` is the body as seen through
`gzip.NewReader` (an error when the gzip header cannot be read) and
`tar.NewReader`. -/
structure Request where
  Authorization : String
  ContentType : String
  Body : Bytes
  gzip : Except String TarStream

/-- A content identifier; `id.Hash().B58String()` is its field. -/
structure Cid where
  hashB58 : String
deriving DecidableEq, Repr

/-- Modelled from the spec: the virtual directory built by `uio.NewDirectory`
and `ipfs.AddFileToDirectory` (the latter is code of this repository that is
not among the sources): "a mapping from entry name (unique within the
directory) to ... child content". -/
abbrev Dir := String → Option Bytes

/-- The directory made by `uio.NewDirectory`: no entry. -/
def Dir.empty : Dir := fun _ => none

/-- Modelled from the spec: the effect of a successful
`ipfs.AddFileToDirectory` on the directory: the content is put "under its
archive-relative name; a name collision overwrites the previous entry". -/
def Dir.add (d : Dir) (name : String) (content : Bytes) : Dir :=
  fun k => if k = name then some content else d k

/-- The operations of the object store the handler calls. -/
inductive StoreOp where
  | AddFileToDirectory (name : String) (content : Bytes)
  | GetNode
  | PinDirectory
  | PinData (body : Bytes)
deriving DecidableEq, Repr

/-- The object store `c.Ipfs()` as the handler sees it.  Every fallible
operation gets the store operations this request performed before it, so its
outcome may depend on everything that happened; `none` is a nil error. -/
structure Ipfs where
  AddFileToDirectory : List StoreOp → String → Bytes → Option String
  GetNode : List StoreOp → Option String
  PinDirectory : List StoreOp → Option String
  PinData : Bytes → Except String Cid
  nodeCid : Dir → Cid

/-- The receiver of `pin`: `validate token` stands for
`jwt.Validate(token, c.verifyKeyFunc, false, string(c.Protocol), nil)`. -/
structure Cafe where
  validate : String → Option JwtError
  Ipfs : Ipfs

/-- What a run of the handler does, in program order: the responses written
through `g`, the switch on the content type, the calls on the directory and
the store, and the lines written through `log`. -/
inductive Event where
  | AbortWithStatusJSON (code : Nat) (obj : JObject)
  | JSON (code : Nat) (obj : JObject)
  | switchContentType (cType : String)
  | NewDirectory
  | store (op : StoreOp)
  | Errorf (format : String) (arg : String)
  | Error (msg : String)
  | Debugf (format : String) (args : List String)
deriving DecidableEq, Repr

/-! ## The handler -/

/-- Go `strings.Split(s, sep)` for a one-character separator, on the
characters of `s`; `acc` holds the current part, reversed. -/
def splitAux (sep : Char) : List Char → List Char → List (List Char)
  | acc, [] => [acc.reverse]
  | acc, c :: cs =>
    if c = sep then acc.reverse :: splitAux sep [] cs
    else splitAux sep (c :: acc) cs

/-- The call `strings.Split(s, " ")`. -/
def stringsSplit (s : String) : List String :=
  (splitAux (Char.ofNat 32) [] s.data).map String.mk

/-- Lines 120-127: the end of a successful run. -/
def shipIt (cType : String) (id : Cid) : List Event :=
  [Event.Debugf "pinned request with content type %s: %s" [cType, id.hashB58],
    Event.JSON StatusCreated (PinResponse.toJSON ⟨some id.hashB58, none⟩)]

/-- Lines 93-105: finalize the directory and pin it. -/
def pinDir (c : Cafe) (cType : String) (ops : List StoreOp) (dirb : Dir) : List Event :=
  Event.store StoreOp.GetNode ::
    match c.Ipfs.GetNode ops with
    | some err =>
      [Event.Errorf "error creating dir node %s" err,
        Event.JSON StatusInternalServerError (ginErrorH err)]
    | none =>
      Event.store StoreOp.PinDirectory ::
        match c.Ipfs.PinDirectory (ops ++ [StoreOp.GetNode]) with
        | some err =>
          [Event.Errorf "error pinning dir node %s" err,
            Event.JSON StatusInternalServerError (ginErrorH err)]
        | none => shipIt cType (c.Ipfs.nodeCid dirb)

/-- Lines 67-91: the loop over the archive.  `ops` are the store operations
performed so far, `dirb` the directory so far, `err` the end of the stream. -/
def untar (c : Cafe) (cType : String) (err : Option String) :
    List StoreOp → Dir → List Entry → List Event
  | ops, dirb, [] =>
    match err with
    | none => pinDir c cType ops dirb
    | some e =>
      [Event.Errorf "error getting tar next %s" e,
        Event.JSON StatusInternalServerError (ginErrorH e)]
  | ops, dirb, e :: rest =>
    if e.header.Typeflag = TypeDir then
      [Event.Error "got nested directory, aborting",
        Event.JSON StatusBadRequest (ginErrorH "directories are not supported")]
    else if e.header.Typeflag = TypeReg then
      Event.store (StoreOp.AddFileToDirectory e.header.Name e.content) ::
        match c.Ipfs.AddFileToDirectory ops e.header.Name e.content with
        | some msg =>
          [Event.Errorf "error adding file to dir %s" msg,
            Event.JSON StatusInternalServerError (ginErrorH msg)]
        | none =>
          untar c cType err (ops ++ [StoreOp.AddFileToDirectory e.header.Name e.content])
            (dirb.add e.header.Name e.content) rest
    else untar c cType err ops dirb rest

/-- Lines 53-119: the switch on the content type. -/
def dispatch (c : Cafe) (g : Request) : List Event :=
  Event.switchContentType g.ContentType ::
    if g.ContentType = "application/gzip" then
      Event.NewDirectory ::
        match g.gzip with
        | Except.error err =>
          [Event.Errorf "error creating gzip reader %s" err,
            Event.JSON StatusBadRequest (ginErrorH err)]
        | Except.ok tr => untar c g.ContentType tr.err [] Dir.empty tr.entries
    else if g.ContentType = "application/octet-stream" then
      Event.store (StoreOp.PinData g.Body) ::
        match c.Ipfs.PinData g.Body with
        | Except.error err =>
          [Event.Errorf "error pinning raw body %s" err,
            Event.JSON StatusInternalServerError (ginErrorH err)]
        | Except.ok id => shipIt g.ContentType id
    else
      [Event.Errorf "got bad content type %s" g.ContentType,
        Event.JSON StatusBadRequest (ginErrorH "invalid content-type")]

/-- The handler `func (c *Cafe) pin(g *gin.Context)`.  The switch of lines
44-49 has no default case; it has a case for each error of `JwtError`. -/
def pin (c : Cafe) (g : Request) : List Event :=
  let auth := stringsSplit g.Authorization
  if auth.length < 2 then
    [Event.AbortWithStatusJSON StatusUnauthorized unauthorizedResponse.toJSON]
  else
    match c.validate (auth.getD 1 "") with
    | some JwtError.ErrNoToken =>
      [Event.AbortWithStatusJSON StatusUnauthorized unauthorizedResponse.toJSON]
    | some JwtError.ErrExpired =>
      [Event.AbortWithStatusJSON StatusUnauthorized unauthorizedResponse.toJSON]
    | some JwtError.ErrInvalid =>
      [Event.AbortWithStatusJSON StatusForbidden forbiddenResponse.toJSON]
    | none => dispatch c g

/-! ## Observations on a run -/

/-- The response an event writes, if it writes one. -/
def Event.response : Event → Option (Nat × JObject)
  | Event.AbortWithStatusJSON code obj => some (code, obj)
  | Event.JSON code obj => some (code, obj)
  | _ => none

/-- Every response written during a run, in order. -/
def responses (tr : List Event) : List (Nat × JObject) :=
  tr.filterMap Event.response

/-- The store operations performed during a run, in order. -/
def storeOps : List Event → List StoreOp
  | [] => []
  | Event.store op :: tr => op :: storeOps tr
  | _ :: tr => storeOps tr

/-- Whether the run reached the switch on the content type. -/
def dispatched (tr : List Event) : Bool :=
  tr.any fun e =>
    match e with
    | Event.switchContentType _ => true
    | _ => false

/-- The status codes of the responses of a run, in order. -/
def statuses (tr : List Event) : List Nat :=
  (responses tr).map Prod.fst

/-- The condition under which `pin` gets past lines 34-51: the Authorization
header splits into at least two parts and the token validates. -/
def authenticated (c : Cafe) (g : Request) : Prop :=
  2 ≤ (stringsSplit g.Authorization).length ∧
    c.validate ((stringsSplit g.Authorization).getD 1 "") = none

instance (c : Cafe) (g : Request) : Decidable (authenticated c g) := by
  unfold authenticated
  exact inferInstance

/-- An entry the loop takes up: a regular file or a directory. -/
def Entry.isRegOrDir (e : Entry) : Bool :=
  decide (e.header.Typeflag = TypeReg) || decide (e.header.Typeflag = TypeDir)

/-- The request with every archive entry that is neither a regular file nor a
directory removed from its archive. -/
def dropOther (g : Request) : Request :=
  match g.gzip with
  | Except.ok tr => ⟨g.Authorization, g.ContentType, g.Body,
      Except.ok ⟨tr.entries.filter Entry.isRegOrDir, tr.err⟩⟩
  | Except.error _ => g

/-- The call on the store the loop makes for a regular-file entry. -/
def Entry.addOp (e : Entry) : StoreOp :=
  StoreOp.AddFileToDirectory e.header.Name e.content

/-- The adds of the regular-file entries that stand before the first
directory entry of an archive, in archive order. -/
def addsBeforeDir : List Entry → List StoreOp
  | [] => []
  | e :: rest =>
    if e.header.Typeflag = TypeDir then []
    else if e.header.Typeflag = TypeReg then e.addOp :: addsBeforeDir rest
    else addsBeforeDir rest

/-- The content of the last entry of the archive with the given name. -/
def lastContent (es : List Entry) (name : String) : Option Bytes :=
  (es.reverse.find? fun e => decide (e.header.Name = name)).map Entry.content

/-- The directory after adding every entry of `es` to `d`, in order. -/
def addAll (d : Dir) (es : List Entry) : Dir :=
  es.foldl (fun acc e => acc.add e.header.Name e.content) d

/-- Whether the archive has a directory entry. -/
def hasDir (es : List Entry) : Bool :=
  es.any fun e => decide (e.header.Typeflag = TypeDir)

/-- Whether every `ipfs.AddFileToDirectory` that the loop calls on the entries
`es`, up to the first directory entry, returns a nil error; `ops` are the
store operations performed before. -/
def addsSucceed (c : Cafe) : List StoreOp → List Entry → Bool
  | _, [] => true
  | ops, e :: rest =>
    if e.header.Typeflag = TypeDir then true
    else if e.header.Typeflag = TypeReg then
      (c.Ipfs.AddFileToDirectory ops e.header.Name e.content).isNone &&
        addsSucceed c (ops ++ [e.addOp]) rest
    else addsSucceed c ops rest

/-- The regular-file entries of an archive. -/
def regularFiles (es : List Entry) : List Entry :=
  es.filter fun e => decide (e.header.Typeflag = TypeReg)

/-! ## core/api_snapshots.go -/

/-- The options `map[string]string` returned by `a.readOpts`. -/
abbrev Opts := List (String × String)

/-- Go map indexing `opts[key]`: the empty string for an absent key. -/
def Opts.get (opts : Opts) (key : String) : String :=
  match opts with
  | [] => ""
  | (k, v) :: rest => if k = key then v else Opts.get rest key

/-- Reads decimal digits into a number, `n` being the value read so far;
`none` when a character is not a digit. -/
def parseDigits : List Char → Nat → Option Nat
  | [], n => some n
  | ch :: rest, n =>
    if 48 ≤ ch.toNat ∧ ch.toNat ≤ 57 then parseDigits rest (n * 10 + (ch.toNat - 48))
    else none

/-- Go `strconv.Atoi` with a 64-bit `int`: an optional sign, then at least
one decimal digit and nothing else, the value within the range of `int`;
`none` stands for a non-nil error. -/
def Atoi (s : String) : Option Int :=
  match s.data with
  | [] => none
  | c :: cs =>
    let digits := if c = Char.ofNat 45 ∨ c = Char.ofNat 43 then cs else c :: cs
    if digits = [] then none
    else
      match parseDigits digits 0 with
      | none => none
      | some n =>
        if c = Char.ofNat 45 then
          if n ≤ 2 ^ 63 then some (-(n : Int)) else none
        else if n < 2 ^ 63 then some (n : Int) else none

/-- The conversion `int32(wait)` of a Go `int`: the value modulo 2^32, taken
in the range of `int32`. -/
def toInt32 (n : Int) : Int :=
  (n + 2 ^ 31) % 2 ^ 32 - 2 ^ 31

structure ThreadSnapshotQuery where
  Address : String
deriving DecidableEq, Repr

structure QueryOptions where
  Local : Bool
  Limit : Int
  Wait : Int
deriving DecidableEq, Repr

/-- The receiver of the search handler: the account address of the node, and
the error (nil as `none`) that `a.node.SearchThreadSnapshots` returns for a
query and its options; the channels and the cancel handle it returns go
unread to `handleSearchStream`. -/
structure Api where
  Address : String
  SearchThreadSnapshots : ThreadSnapshotQuery → QueryOptions → Option String

/-- What a run of the search handler does, in program order. -/
inductive SearchEvent where
  | abort500 (err : String)
  | SearchThreadSnapshots (query : ThreadSnapshotQuery) (options : QueryOptions)
  | String (code : Nat) (body : String)
  | handleSearchStream (events : Bool)
deriving DecidableEq, Repr

/-- Lines 28-31: the variable `wait`, a Go `int`. -/
def searchWait (opts : Opts) : Int :=
  match Atoi (opts.get "wait") with
  | some w => w
  | none => 5

/-- Lines 36-40: the value of `options`. -/
def searchOptions (opts : Opts) : QueryOptions :=
  ⟨false, -1, toInt32 (searchWait opts)⟩

/-- The handler `func (a *api) searchThreadSnapshots(g *gin.Context)`;
`readOpts` is the result of `a.readOpts(g)` on the request. -/
def searchThreadSnapshots (a : Api) (readOpts : Except String Opts) : List SearchEvent :=
  match readOpts with
  | Except.error err => [SearchEvent.abort500 err]
  | Except.ok opts =>
    SearchEvent.SearchThreadSnapshots ⟨a.Address⟩ (searchOptions opts) ::
      match a.SearchThreadSnapshots ⟨a.Address⟩ (searchOptions opts) with
      | some err => [SearchEvent.String StatusBadRequest err]
      | none => [SearchEvent.handleSearchStream (decide (opts.get "events" = "true"))]

/-- Modelled from the spec: the helper `abort500` of the api type is code of
this repository that is not among the sources, and the spec does not describe
it; it is taken at its name and at the `@Failure 500 ... "Internal Server
Error"` of the handler: it answers the text of the error with status 500. -/
def abort500 (err : String) : Nat × String :=
  (StatusInternalServerError, err)

/-- The response an event of the search handler writes, if it writes one. -/
def searchResponse : SearchEvent → Option (Nat × String)
  | SearchEvent.abort500 err => some (abort500 err)
  | SearchEvent.String code body => some (code, body)
  | _ => none

/-- Every response written during a run of the search handler, in order. -/
def searchResponses (tr : List SearchEvent) : List (Nat × String) :=
  tr.filterMap searchResponse

/-- The wait budget of the options handed to the network search. -/
def dispatchedWait : List SearchEvent → Option Int
  | [] => none
  | SearchEvent.SearchThreadSnapshots _ options :: _ => some options.Wait
  | _ :: tr => dispatchedWait tr

/-- Whether the run started the result presenter. -/
def presenterStarted (tr : List SearchEvent) : Bool :=
  tr.any fun e =>
    match e with
    | SearchEvent.handleSearchStream _ => true
    | _ => false

/-! ## Predicates on runs used in the statements -/

/-- The shape of a Pin Result: the id alone with status 201, or the error
alone with status 400 or 500. -/
def isPinResult (p : Nat × JObject) : Prop :=
  (p.1 = 201 ∧ ∃ id, p.2 = PinResponse.toJSON ⟨some id, none⟩) ∨
    ((p.1 = 400 ∨ p.1 = 500) ∧ ∃ msg, p.2 = PinResponse.toJSON ⟨none, some msg⟩)

/-- An upload the store takes without failure: an authenticated
application/gzip request whose archive `es` ends at `io.EOF`, on which every
`ipfs.AddFileToDirectory` of the run, the `GetNode` and the
`ipfs.PinDirectory` return a nil error. -/
def uploadSucceeds (c : Cafe) (g : Request) (es : List Entry) : Prop :=
  authenticated c g ∧ g.ContentType = "application/gzip" ∧ g.gzip = Except.ok ⟨es, none⟩ ∧
    addsSucceed c [] es = true ∧
    c.Ipfs.GetNode (addsBeforeDir es) = none ∧
    c.Ipfs.PinDirectory (addsBeforeDir es ++ [StoreOp.GetNode]) = none

/-- A run of `pin` that succeeds, read off the request and the collaborators:
the request is authenticated, and either it is an application/gzip request
whose gzip header is read, whose archive `es` is read to `io.EOF` and has no
directory entry, and on which every `ipfs.AddFileToDirectory` of the loop,
the `GetNode` and the `ipfs.PinDirectory` return a nil error, or it is an
application/octet-stream request on which `ipfs.PinData` returns a nil error.
Every other run is a failure: of the authentication, of the input or of the
store. -/
def pinSucceeds (c : Cafe) (g : Request) : Prop :=
  authenticated c g ∧
    ((g.ContentType = "application/gzip" ∧
        ∃ es, g.gzip = Except.ok ⟨es, none⟩ ∧ hasDir es = false ∧
          addsSucceed c [] es = true ∧
          c.Ipfs.GetNode (addsBeforeDir es) = none ∧
          c.Ipfs.PinDirectory (addsBeforeDir es ++ [StoreOp.GetNode]) = none) ∨
      (g.ContentType = "application/octet-stream" ∧
        ∃ id, c.Ipfs.PinData g.Body = Except.ok id))

/-! ## Concrete collaborators and requests used in the examples -/

/-- A verifier that accepts the token "good", takes "old" for expired, the
empty token for missing and anything else for invalid. -/
def exValidate (token : String) : Option JwtError :=
  if token = "good" then none
  else if token = "old" then some JwtError.ErrExpired
  else if token = "" then some JwtError.ErrNoToken
  else some JwtError.ErrInvalid

/-- A store whose four operations return the given errors (`none`: the
operation succeeds) whatever their arguments; the identifier of a directory
is read off its entries "a.txt" and "b.txt", that of a raw body is the body. -/
def exStore (addErr getErr pinErr dataErr : Option String) : Ipfs :=
  ⟨fun _ _ _ => addErr, fun _ => getErr, fun _ => pinErr,
    fun body =>
      match dataErr with
      | some err => Except.error err
      | none => Except.ok ⟨body⟩,
    fun d => ⟨(d "a.txt").getD "-" ++ "/" ++ (d "b.txt").getD "-"⟩⟩

/-- A store on which nothing fails. -/
def exIpfs : Ipfs := exStore none none none none

/-- A store on which adding a file fails. -/
def exIpfsAddFails : Ipfs := exStore (some "disk full") none none none

def exCafe : Cafe := ⟨exValidate, exIpfs⟩

def exCafeAddFails : Cafe := ⟨exValidate, exIpfsAddFails⟩

/-- A gzip request with a valid token over the given tar stream. -/
def exGzip (tr : TarStream) : Request :=
  ⟨"Bearer good", "application/gzip", "", Except.ok tr⟩

def exFileA : Entry := ⟨⟨"a.txt", TypeReg⟩, "hi"⟩

def exFileB : Entry := ⟨⟨"b.txt", TypeReg⟩, "bye"⟩

def exDir : Entry := ⟨⟨"d", TypeDir⟩, ""⟩

def exLink : Entry := ⟨⟨"l", Char.ofNat 50⟩, ""⟩

/-- A node whose network search accepts every query. -/
def exApi : Api := ⟨"P8wait", fun _ _ => none⟩

/-- A node whose network search refuses every query. -/
def exApiRefuses : Api := ⟨"P8wait", fun _ _ => some "offline"⟩

/-! ## Lemmas on the handler -/

theorem pin_of_authenticated (c : Cafe) (g : Request) (h : authenticated c g) :
    pin c g = dispatch c g := by
  obtain ⟨h1, h2⟩ := h
  unfold pin
  simp only []
  rw [if_neg (by omega), h2]

theorem pin_of_short (c : Cafe) (g : Request)
    (h : (stringsSplit g.Authorization).length < 2) :
    pin c g = [Event.AbortWithStatusJSON 401 [("error", "unauthorized")]] := by
  unfold pin
  simp only []
  rw [if_pos h]
  rfl

theorem pin_of_error (c : Cafe) (g : Request) (e : JwtError)
    (h1 : 2 ≤ (stringsSplit g.Authorization).length)
    (h2 : c.validate ((stringsSplit g.Authorization).getD 1 "") = some e) :
    pin c g =
      if e = JwtError.ErrInvalid then [Event.AbortWithStatusJSON 403 [("error", "forbidden")]]
      else [Event.AbortWithStatusJSON 401 [("error", "unauthorized")]] := by
  unfold pin
  simp only []
  rw [if_neg (by omega), h2]
  cases e <;> rfl

theorem responses_pinDir (c : Cafe) (cType : String) (ops : List StoreOp) (dirb : Dir) :
    ∃ p, responses (pinDir c cType ops dirb) = [p] ∧ isPinResult p ∧ p.1 ≠ 400 := by
  unfold pinDir
  cases c.Ipfs.GetNode ops with
  | some err =>
    exact ⟨(500, [("error", err)]), rfl, Or.inr ⟨Or.inr rfl, err, rfl⟩, by simp⟩
  | none =>
    cases c.Ipfs.PinDirectory (ops ++ [StoreOp.GetNode]) with
    | some err =>
      exact ⟨(500, [("error", err)]), rfl, Or.inr ⟨Or.inr rfl, err, rfl⟩, by simp⟩
    | none =>
      exact ⟨(201, [("id", (c.Ipfs.nodeCid dirb).hashB58)]), rfl,
        Or.inl ⟨rfl, _, rfl⟩, by simp⟩

theorem responses_untar (c : Cafe) (cType : String) (err : Option String)
    (es : List Entry) :
    ∀ (ops : List StoreOp) (dirb : Dir),
      ∃ p, responses (untar c cType err ops dirb es) = [p] ∧ isPinResult p := by
  induction es with
  | nil =>
    intro ops dirb
    cases err with
    | none =>
      obtain ⟨p, h1, h2, _⟩ := responses_pinDir c cType ops dirb
      exact ⟨p, h1, h2⟩
    | some e => exact ⟨(500, [("error", e)]), rfl, Or.inr ⟨Or.inr rfl, e, rfl⟩⟩
  | cons e rest ih =>
    intro ops dirb
    unfold untar
    by_cases hd : e.header.Typeflag = TypeDir
    · rw [if_pos hd]
      exact ⟨(400, [("error", "directories are not supported")]), rfl,
        Or.inr ⟨Or.inl rfl, _, rfl⟩⟩
    · rw [if_neg hd]
      by_cases hr : e.header.Typeflag = TypeReg
      · rw [if_pos hr]
        cases c.Ipfs.AddFileToDirectory ops e.header.Name e.content with
        | some msg => exact ⟨(500, [("error", msg)]), rfl, Or.inr ⟨Or.inr rfl, msg, rfl⟩⟩
        | none => exact ih _ _
      · rw [if_neg hr]
        exact ih _ _

theorem responses_dispatch (c : Cafe) (g : Request) :
    ∃ p, responses (dispatch c g) = [p] ∧ isPinResult p := by
  unfold dispatch
  by_cases hz : g.ContentType = "application/gzip"
  · rw [if_pos hz]
    cases hg : g.gzip with
    | error err => exact ⟨(400, [("error", err)]), rfl, Or.inr ⟨Or.inl rfl, err, rfl⟩⟩
    | ok tr => exact responses_untar c _ tr.err tr.entries [] Dir.empty
  · rw [if_neg hz]
    by_cases ho : g.ContentType = "application/octet-stream"
    · rw [if_pos ho]
      cases c.Ipfs.PinData g.Body with
      | error err => exact ⟨(500, [("error", err)]), rfl, Or.inr ⟨Or.inr rfl, err, rfl⟩⟩
      | ok id => exact ⟨(201, [("id", id.hashB58)]), rfl, Or.inl ⟨rfl, _, rfl⟩⟩
    · rw [if_neg ho]
      exact ⟨(400, [("error", "invalid content-type")]), rfl, Or.inr ⟨Or.inl rfl, _, rfl⟩⟩

theorem untar_addFails (c : Cafe) (cType : String) (err : Option String)
    (es : List Entry) :
    ∀ (ops : List StoreOp) (dirb : Dir), addsSucceed c ops es = false →
      ∃ msg, responses (untar c cType err ops dirb es) = [(500, [("error", msg)])] := by
  induction es with
  | nil => intro ops dirb h; simp [addsSucceed] at h
  | cons e rest ih =>
    intro ops dirb h
    unfold addsSucceed at h
    unfold untar
    by_cases hd : e.header.Typeflag = TypeDir
    · rw [if_pos hd] at h
      exact absurd h (by simp)
    · rw [if_neg hd] at h
      rw [if_neg hd]
      by_cases hr : e.header.Typeflag = TypeReg
      · rw [if_pos hr] at h
        rw [if_pos hr]
        cases ha : c.Ipfs.AddFileToDirectory ops e.header.Name e.content with
        | some msg => exact ⟨msg, rfl⟩
        | none =>
          rw [ha] at h
          simp only [Option.isNone_none, Bool.true_and] at h
          exact ih _ _ h
      · rw [if_neg hr] at h
        rw [if_neg hr]
        exact ih _ _ h

theorem untar_dir (c : Cafe) (cType : String) (err : Option String)
    (es : List Entry) :
    ∀ (ops : List StoreOp) (dirb : Dir), addsSucceed c ops es = true → hasDir es = true →
      responses (untar c cType err ops dirb es) =
        [(400, [("error", "directories are not supported")])] := by
  induction es with
  | nil => intro ops dirb _ h; simp [hasDir] at h
  | cons e rest ih =>
    intro ops dirb h hdir
    unfold addsSucceed at h
    unfold untar
    by_cases hd : e.header.Typeflag = TypeDir
    · rw [if_pos hd]
      rfl
    · rw [if_neg hd] at h
      rw [if_neg hd]
      have hdir2 : hasDir rest = true := by
        simpa [hasDir, hd] using hdir
      by_cases hr : e.header.Typeflag = TypeReg
      · rw [if_pos hr] at h
        rw [if_pos hr]
        cases ha : c.Ipfs.AddFileToDirectory ops e.header.Name e.content with
        | some msg => rw [ha] at h; simp at h
        | none =>
          rw [ha] at h
          simp only [Option.isNone_none, Bool.true_and] at h
          exact ih _ _ h hdir2
      · rw [if_neg hr] at h
        rw [if_neg hr]
        exact ih _ _ h hdir2

theorem untar_noDir (c : Cafe) (cType : String) (err : Option String)
    (es : List Entry) :
    ∀ (ops : List StoreOp) (dirb : Dir), addsSucceed c ops es = true → hasDir es = false →
      untar c cType err ops dirb es =
        (addsBeforeDir es).map Event.store ++
          untar c cType err (ops ++ addsBeforeDir es) (addAll dirb (regularFiles es)) [] := by
  induction es with
  | nil => intro ops dirb _ _; simp [addsBeforeDir, addAll, regularFiles]
  | cons e rest ih =>
    intro ops dirb h hdir
    have hd : ¬ e.header.Typeflag = TypeDir := by
      intro hd; simp [hasDir, hd] at hdir
    have hdir2 : hasDir rest = false := by
      simpa [hasDir, hd] using hdir
    unfold addsSucceed at h
    rw [if_neg hd] at h
    rw [untar, if_neg hd]
    by_cases hr : e.header.Typeflag = TypeReg
    · rw [if_pos hr] at h
      rw [if_pos hr]
      cases ha : c.Ipfs.AddFileToDirectory ops e.header.Name e.content with
      | some msg => rw [ha] at h; simp at h
      | none =>
        rw [ha] at h
        simp only [Option.isNone_none, Bool.true_and] at h
        have h2 : addsSucceed c
            (ops ++ [StoreOp.AddFileToDirectory e.header.Name e.content]) rest = true := h
        simp only []
        rw [ih _ _ h2 hdir2]
        have hne : ¬ TypeReg = TypeDir := by decide
        simp [addsBeforeDir, hne, hr, regularFiles, addAll, Entry.addOp, List.append_assoc]
    · rw [if_neg hr] at h
      rw [if_neg hr, ih _ _ h hdir2]
      simp [addsBeforeDir, hd, hr, regularFiles]

theorem untar_filter (c : Cafe) (cType : String) (err : Option String)
    (es : List Entry) :
    ∀ (ops : List StoreOp) (dirb : Dir),
      untar c cType err ops dirb (es.filter Entry.isRegOrDir) =
        untar c cType err ops dirb es := by
  induction es with
  | nil => intro ops dirb; rfl
  | cons e rest ih =>
    intro ops dirb
    by_cases hd : e.header.Typeflag = TypeDir
    · have hk : e.isRegOrDir = true := by simp [Entry.isRegOrDir, hd]
      rw [List.filter_cons_of_pos hk, untar, untar, if_pos hd, if_pos hd]
    · by_cases hr : e.header.Typeflag = TypeReg
      · have hk : e.isRegOrDir = true := by simp [Entry.isRegOrDir, hr]
        rw [List.filter_cons_of_pos hk, untar, untar, if_neg hd, if_neg hd, if_pos hr,
          if_pos hr]
        cases c.Ipfs.AddFileToDirectory ops e.header.Name e.content with
        | some msg => rfl
        | none => simp only []; rw [ih]
      · have hk : ¬ e.isRegOrDir = true := by simp [Entry.isRegOrDir, hd, hr]
        rw [List.filter_cons_of_neg hk, ih]
        conv_rhs => rw [untar, if_neg hd, if_neg hr]

theorem storeOps_map_store (l : List StoreOp) (t : List Event) :
    storeOps (l.map Event.store ++ t) = l ++ storeOps t := by
  induction l with
  | nil => rfl
  | cons op l ih => simp [storeOps, ih]

theorem untar_status400 (c : Cafe) (cType : String) (err : Option String)
    (es : List Entry) :
    ∀ (ops : List StoreOp) (dirb : Dir),
      statuses (untar c cType err ops dirb es) = [400] →
        storeOps (untar c cType err ops dirb es) = addsBeforeDir es := by
  induction es with
  | nil =>
    intro ops dirb h
    exfalso
    cases err with
    | none =>
      obtain ⟨p, h1, _, h3⟩ := responses_pinDir c cType ops dirb
      have h4 : statuses (pinDir c cType ops dirb) = [p.1] := by
        simp [statuses, h1]
      have h5 : statuses (pinDir c cType ops dirb) = [400] := h
      rw [h4] at h5
      exact h3 (by simpa using h5)
    | some e =>
      have h5 : [500] = [400] := h
      simp at h5
  | cons e rest ih =>
    intro ops dirb h
    unfold untar at h ⊢
    by_cases hd : e.header.Typeflag = TypeDir
    · rw [if_pos hd]
      simp [addsBeforeDir, hd, storeOps]
    · rw [if_neg hd] at h ⊢
      by_cases hr : e.header.Typeflag = TypeReg
      · rw [if_pos hr] at h ⊢
        cases ha : c.Ipfs.AddFileToDirectory ops e.header.Name e.content with
        | some msg =>
          rw [ha] at h
          have h5 : [500] = [400] := h
          simp at h5
        | none =>
          rw [ha] at h
          simp only [] at h ⊢
          have h6 := ih _ _ h
          have hne : ¬ TypeReg = TypeDir := by decide
          simp [addsBeforeDir, hne, hr, storeOps, h6, Entry.addOp]
      · rw [if_neg hr] at h ⊢
        simp [addsBeforeDir, hd, hr, ih _ _ h]

theorem mem_addsBeforeDir (es : List Entry) (op : StoreOp) (h : op ∈ addsBeforeDir es) :
    ∃ e ∈ es, e.header.Typeflag = TypeReg ∧ op = e.addOp := by
  induction es with
  | nil => simp [addsBeforeDir] at h
  | cons e rest ih =>
    unfold addsBeforeDir at h
    by_cases hd : e.header.Typeflag = TypeDir
    · rw [if_pos hd] at h
      simp at h
    · rw [if_neg hd] at h
      by_cases hr : e.header.Typeflag = TypeReg
      · rw [if_pos hr] at h
        rcases List.mem_cons.mp h with h1 | h1
        · exact ⟨e, List.mem_cons_self _ _, hr, h1⟩
        · obtain ⟨e2, h2, h3⟩ := ih h1
          exact ⟨e2, List.mem_cons_of_mem _ h2, h3⟩
      · rw [if_neg hr] at h
        obtain ⟨e2, h2, h3⟩ := ih h
        exact ⟨e2, List.mem_cons_of_mem _ h2, h3⟩

theorem addsBeforeDir_regular (es : List Entry)
    (h : ∀ e ∈ es, e.header.Typeflag = TypeReg) :
    addsBeforeDir es = es.map Entry.addOp ∧ regularFiles es = es ∧ hasDir es = false := by
  have hne : ¬ TypeReg = TypeDir := by decide
  induction es with
  | nil => exact ⟨rfl, rfl, rfl⟩
  | cons e rest ih =>
    have he : e.header.Typeflag = TypeReg := h e (List.mem_cons_self _ _)
    obtain ⟨h1, h2, h3⟩ := ih fun x hx => h x (List.mem_cons_of_mem _ hx)
    unfold regularFiles at h2
    unfold hasDir at h3
    refine ⟨?_, ?_, ?_⟩
    · simp [addsBeforeDir, he, hne, h1]
    · simp [regularFiles, he, h2]
    · simp only [hasDir, List.any_cons, he, hne, decide_False, Bool.false_or]
      exact h3

theorem addAll_apply (es : List Entry) :
    ∀ (d : Dir) (name : String),
      addAll d es name = ((lastContent es name).or (d name)) := by
  induction es with
  | nil => intro d name; simp [addAll, lastContent]
  | cons e rest ih =>
    intro d name
    have h1 : addAll d (e :: rest) = addAll (d.add e.header.Name e.content) rest := rfl
    rw [h1, ih]
    unfold lastContent
    rw [List.reverse_cons, List.find?_append]
    cases hf : List.find? (fun x => decide (x.header.Name = name)) rest.reverse with
    | some x => simp
    | none =>
      by_cases hn : e.header.Name = name
      · simp [Dir.add, hn]
      · have hn2 : ¬ name = e.header.Name := fun h => hn h.symm
        simp [Dir.add, hn, hn2]

theorem addAll_empty (es : List Entry) : addAll Dir.empty es = lastContent es := by
  funext name
  rw [addAll_apply]
  simp [Dir.empty]

theorem pin_gzip (c : Cafe) (g : Request) (tr : TarStream) (hauth : authenticated c g)
    (hct : g.ContentType = "application/gzip") (hgz : g.gzip = Except.ok tr) :
    pin c g =
      Event.switchContentType g.ContentType :: Event.NewDirectory ::
        untar c g.ContentType tr.err [] Dir.empty tr.entries := by
  rw [pin_of_authenticated c g hauth]
  unfold dispatch
  rw [if_pos hct, hgz]

theorem pin_gzip_error (c : Cafe) (g : Request) (err : String) (hauth : authenticated c g)
    (hct : g.ContentType = "application/gzip") (hgz : g.gzip = Except.error err) :
    pin c g =
      [Event.switchContentType g.ContentType, Event.NewDirectory,
        Event.Errorf "error creating gzip reader %s" err,
        Event.JSON 400 [("error", err)]] := by
  rw [pin_of_authenticated c g hauth]
  unfold dispatch
  rw [if_pos hct, hgz]
  rfl

theorem pin_bad_type (c : Cafe) (g : Request) (hauth : authenticated c g)
    (hz : g.ContentType ≠ "application/gzip")
    (ho : g.ContentType ≠ "application/octet-stream") :
    pin c g =
      [Event.switchContentType g.ContentType,
        Event.Errorf "got bad content type %s" g.ContentType,
        Event.JSON 400 [("error", "invalid content-type")]] := by
  rw [pin_of_authenticated c g hauth]
  unfold dispatch
  rw [if_neg hz, if_neg ho]
  rfl

theorem responses_pin (c : Cafe) (g : Request) :
    ∃ p, responses (pin c g) = [p] ∧
      (isPinResult p ∨ p = (401, [("error", "unauthorized")]) ∨
        p = (403, [("error", "forbidden")])) := by
  by_cases h1 : (stringsSplit g.Authorization).length < 2
  · rw [pin_of_short c g h1]
    exact ⟨_, rfl, Or.inr (Or.inl rfl)⟩
  · have h2 : 2 ≤ (stringsSplit g.Authorization).length := by omega
    cases hv : c.validate ((stringsSplit g.Authorization).getD 1 "") with
    | none =>
      rw [pin_of_authenticated c g ⟨h2, hv⟩]
      obtain ⟨p, hp, hs⟩ := responses_dispatch c g
      exact ⟨p, hp, Or.inl hs⟩
    | some e =>
      rw [pin_of_error c g e h2 hv]
      cases e
      · exact ⟨_, rfl, Or.inr (Or.inl rfl)⟩
      · exact ⟨_, rfl, Or.inr (Or.inl rfl)⟩
      · exact ⟨_, rfl, Or.inr (Or.inr rfl)⟩

theorem pin_of_unauthenticated (c : Cafe) (g : Request) (h : ¬ authenticated c g) :
    pin c g = [Event.AbortWithStatusJSON 401 [("error", "unauthorized")]] ∨
      pin c g = [Event.AbortWithStatusJSON 403 [("error", "forbidden")]] := by
  by_cases h1 : (stringsSplit g.Authorization).length < 2
  · exact Or.inl (pin_of_short c g h1)
  · have h2 : 2 ≤ (stringsSplit g.Authorization).length := by omega
    cases hv : c.validate ((stringsSplit g.Authorization).getD 1 "") with
    | none => exact absurd ⟨h2, hv⟩ h
    | some e =>
      rw [pin_of_error c g e h2 hv]
      cases e
      · exact Or.inl rfl
      · exact Or.inl rfl
      · exact Or.inr rfl

/-! ## The pin handler: authentication -/

/-- C1: when the Authorization header does not split on a space into at least
two parts, or the token validation fails with NoToken or with Expired, the
run of `pin` is the single abort with status 401 and body error
"unauthorized"; when the validation fails with Invalid it is the single abort
with status 403 and body error "forbidden"; no run has both a 401 and a 403
response, and a run that fails authentication never reaches the switch on the
content type. -/
theorem pin_auth_failure (c : Cafe) (g : Request) :
    ((stringsSplit g.Authorization).length < 2 →
        pin c g = [Event.AbortWithStatusJSON 401 [("error", "unauthorized")]]) ∧
      (2 ≤ (stringsSplit g.Authorization).length →
        c.validate ((stringsSplit g.Authorization).getD 1 "") = some JwtError.ErrNoToken ∨
          c.validate ((stringsSplit g.Authorization).getD 1 "") = some JwtError.ErrExpired →
        pin c g = [Event.AbortWithStatusJSON 401 [("error", "unauthorized")]]) ∧
      (2 ≤ (stringsSplit g.Authorization).length →
        c.validate ((stringsSplit g.Authorization).getD 1 "") = some JwtError.ErrInvalid →
        pin c g = [Event.AbortWithStatusJSON 403 [("error", "forbidden")]]) ∧
      ¬ (401 ∈ statuses (pin c g) ∧ 403 ∈ statuses (pin c g)) ∧
      (¬ authenticated c g → dispatched (pin c g) = false) := by
  refine ⟨pin_of_short c g, ?_, ?_, ?_, ?_⟩
  · intro h1 h2
    rcases h2 with h2 | h2
    · rw [pin_of_error c g _ h1 h2]
      rfl
    · rw [pin_of_error c g _ h1 h2]
      rfl
  · intro h1 h2
    rw [pin_of_error c g _ h1 h2]
    rfl
  · obtain ⟨p, hp, _⟩ := responses_pin c g
    have hs : statuses (pin c g) = [p.1] := by simp [statuses, hp]
    rw [hs]
    intro h
    have h1 : 401 = p.1 := by simpa using h.1
    have h2 : 403 = p.1 := by simpa using h.2
    omega
  · intro h
    rcases pin_of_unauthenticated c g h with h1 | h1
    · rw [h1]
      rfl
    · rw [h1]
      rfl

/-- C1, on concrete requests: no Authorization header, an expired token, a
forged token. -/
theorem pin_auth_failure_witness :
    pin exCafe ⟨"", "application/gzip", "", Except.error "x"⟩ =
        [Event.AbortWithStatusJSON 401 [("error", "unauthorized")]] ∧
      pin exCafe ⟨"Bearer old", "application/gzip", "", Except.error "x"⟩ =
        [Event.AbortWithStatusJSON 401 [("error", "unauthorized")]] ∧
      pin exCafe ⟨"Bearer forged", "application/gzip", "", Except.error "x"⟩ =
        [Event.AbortWithStatusJSON 403 [("error", "forbidden")]] ∧
      dispatched (pin exCafe ⟨"Bearer forged", "application/gzip", "", Except.error "x"⟩) =
        false :=
  ⟨(pin_auth_failure exCafe ⟨"", "application/gzip", "", Except.error "x"⟩).1 (by decide),
    (pin_auth_failure exCafe ⟨"Bearer old", "application/gzip", "", Except.error "x"⟩).2.1
      (by decide) (Or.inr (by decide)),
    (pin_auth_failure exCafe ⟨"Bearer forged", "application/gzip", "", Except.error "x"⟩).2.2.1
      (by decide) (by decide),
    (pin_auth_failure exCafe
      ⟨"Bearer forged", "application/gzip", "", Except.error "x"⟩).2.2.2.2 (by decide)⟩

/-! ## The pin handler: archives with a directory entry -/

/-- C2 as stated fails: on a store where adding a file fails, an archive with
a regular file before its directory entry is answered with status 500, not
with 400. -/
theorem pin_dir_archive_add_fails :
    authenticated exCafeAddFails (exGzip ⟨[exFileA, exDir], none⟩) ∧
      (exGzip ⟨[exFileA, exDir], none⟩).ContentType = "application/gzip" ∧
      hasDir [exFileA, exDir] = true ∧
      responses (pin exCafeAddFails (exGzip ⟨[exFileA, exDir], none⟩)) =
        [(500, [("error", "disk full")])] ∧
      statuses (pin exCafeAddFails (exGzip ⟨[exFileA, exDir], none⟩)) ≠ [400] := by
  decide

/-- C2, amended: for an authenticated application/gzip request whose archive
has a directory entry, wherever it stands: when every add of a regular file
before the first directory entry succeeds, the one response is status 400
with the error "directories are not supported"; when one of these adds fails,
the one response is status 500 with an error; in both cases no response
carries an id. -/
theorem pin_dir_archive (c : Cafe) (g : Request) (tr : TarStream)
    (hauth : authenticated c g) (hct : g.ContentType = "application/gzip")
    (hgz : g.gzip = Except.ok tr) (hdir : hasDir tr.entries = true) :
    (addsSucceed c [] tr.entries = true →
        responses (pin c g) = [(400, [("error", "directories are not supported")])]) ∧
      (addsSucceed c [] tr.entries = false →
        ∃ msg, responses (pin c g) = [(500, [("error", msg)])]) ∧
      ∀ p ∈ responses (pin c g), ∀ id, ("id", id) ∉ p.2 := by
  have hpin : responses (pin c g) =
      responses (untar c g.ContentType tr.err [] Dir.empty tr.entries) := by
    rw [pin_gzip c g tr hauth hct hgz]
    rfl
  have h1 := untar_dir c g.ContentType tr.err tr.entries [] Dir.empty
  have h2 := untar_addFails c g.ContentType tr.err tr.entries [] Dir.empty
  rw [hpin]
  refine ⟨fun h => h1 h hdir, h2, ?_⟩
  intro p hp id
  cases hs : addsSucceed c [] tr.entries with
  | true =>
    rw [h1 hs hdir] at hp
    simp only [List.mem_singleton] at hp
    rw [hp]
    simp
  | false =>
    obtain ⟨msg, hm⟩ := h2 hs
    rw [hm] at hp
    simp only [List.mem_singleton] at hp
    rw [hp]
    simp

/-- C2, amended, on the archive a.txt, a link, a directory, b.txt. -/
theorem pin_dir_archive_witness :
    responses (pin exCafe (exGzip ⟨[exFileA, exLink, exDir, exFileB], none⟩)) =
      [(400, [("error", "directories are not supported")])] :=
  (pin_dir_archive exCafe (exGzip ⟨[exFileA, exLink, exDir, exFileB], none⟩)
    ⟨[exFileA, exLink, exDir, exFileB], none⟩ (by decide) rfl rfl (by decide)).1 (by decide)

/-! ## The pin handler: unrecognized content type -/

/-- C3 as stated fails: for text/plain the body is the error
"invalid content-type", with a space, not "invalid-content-type". -/
theorem pin_text_plain_body :
    authenticated exCafe ⟨"Bearer good", "text/plain", "", Except.error "x"⟩ ∧
      responses (pin exCafe ⟨"Bearer good", "text/plain", "", Except.error "x"⟩) =
        [(400, [("error", "invalid content-type")])] ∧
      responses (pin exCafe ⟨"Bearer good", "text/plain", "", Except.error "x"⟩) ≠
        [(400, [("error", "invalid-content-type")])] := by
  decide

/-- C3, amended: for every authenticated request whose Content-Type is neither
application/gzip nor application/octet-stream, the run is the switch, one log
line and the one response with status 400 and the body error
"invalid content-type". -/
theorem pin_invalid_content_type (c : Cafe) (g : Request) (hauth : authenticated c g)
    (hz : g.ContentType ≠ "application/gzip")
    (ho : g.ContentType ≠ "application/octet-stream") :
    pin c g =
        [Event.switchContentType g.ContentType,
          Event.Errorf "got bad content type %s" g.ContentType,
          Event.JSON 400 [("error", "invalid content-type")]] ∧
      responses (pin c g) = [(400, [("error", "invalid content-type")])] := by
  rw [pin_bad_type c g hauth hz ho]
  exact ⟨rfl, rfl⟩

/-- C3, amended, on a text/plain request. -/
theorem pin_invalid_content_type_witness :
    responses (pin exCafe ⟨"Bearer good", "text/plain", "", Except.error "x"⟩) =
      [(400, [("error", "invalid content-type")])] :=
  (pin_invalid_content_type exCafe ⟨"Bearer good", "text/plain", "", Except.error "x"⟩
    (by decide) (by decide) (by decide)).2

/-! ## The pin handler: store operations before an early error -/

/-- C4 as stated fails: a request that ends in the nested-directory error has
already added the regular file that stands before the directory entry. -/
theorem pin_dir_after_file_adds :
    responses (pin exCafe (exGzip ⟨[exFileA, exDir], none⟩)) =
        [(400, [("error", "directories are not supported")])] ∧
      storeOps (pin exCafe (exGzip ⟨[exFileA, exDir], none⟩)) =
        [StoreOp.AddFileToDirectory "a.txt" "hi"] ∧
      storeOps (pin exCafe (exGzip ⟨[exFileA, exDir], none⟩)) ≠ [] := by
  decide

/-- C4, amended: a request that fails authentication, or has an unrecognized
content type, or a gzip header that cannot be read, performs no store
operation at all; a request over a readable archive that is answered with
status 400 (the nested-directory error) has performed exactly the adds of the
regular files that stand before the first directory entry, in archive order,
so it has finalized no directory and pinned nothing. -/
theorem pin_early_error_ops (c : Cafe) (g : Request) :
    (¬ authenticated c g → storeOps (pin c g) = []) ∧
      (authenticated c g → g.ContentType ≠ "application/gzip" →
        g.ContentType ≠ "application/octet-stream" → storeOps (pin c g) = []) ∧
      (authenticated c g → g.ContentType = "application/gzip" →
        ∀ err, g.gzip = Except.error err → storeOps (pin c g) = []) ∧
      (authenticated c g → g.ContentType = "application/gzip" →
        ∀ tr, g.gzip = Except.ok tr → statuses (pin c g) = [400] →
          responses (pin c g) = [(400, [("error", "directories are not supported")])] ∧
            storeOps (pin c g) = addsBeforeDir tr.entries ∧
            ∀ op ∈ storeOps (pin c g),
              ∃ e ∈ tr.entries, e.header.Typeflag = TypeReg ∧
                op = StoreOp.AddFileToDirectory e.header.Name e.content) := by
  refine ⟨?_, ?_, ?_, ?_⟩
  · intro h
    rcases pin_of_unauthenticated c g h with h1 | h1
    · rw [h1]
      rfl
    · rw [h1]
      rfl
  · intro hauth hz ho
    rw [pin_bad_type c g hauth hz ho]
    rfl
  · intro hauth hct err hgz
    rw [pin_gzip_error c g err hauth hct hgz]
    rfl
  · intro hauth hct tr hgz hst
    rw [pin_gzip c g tr hauth hct hgz] at hst ⊢
    have hst2 : statuses (untar c g.ContentType tr.err [] Dir.empty tr.entries) = [400] := hst
    have hops := untar_status400 c g.ContentType tr.err tr.entries [] Dir.empty hst2
    have hops2 : storeOps (Event.switchContentType g.ContentType :: Event.NewDirectory ::
        untar c g.ContentType tr.err [] Dir.empty tr.entries) = addsBeforeDir tr.entries := hops
    refine ⟨?_, hops2, ?_⟩
    · have hr : responses (Event.switchContentType g.ContentType :: Event.NewDirectory ::
          untar c g.ContentType tr.err [] Dir.empty tr.entries) =
          responses (untar c g.ContentType tr.err [] Dir.empty tr.entries) := rfl
      rw [hr]
      cases hs : addsSucceed c [] tr.entries with
      | false =>
        obtain ⟨msg, hm⟩ := untar_addFails c g.ContentType tr.err tr.entries [] Dir.empty hs
        rw [statuses, hm] at hst2
        simp at hst2
      | true =>
        cases hd : hasDir tr.entries with
        | true => exact untar_dir c g.ContentType tr.err tr.entries [] Dir.empty hs hd
        | false =>
          exfalso
          rw [untar_noDir c g.ContentType tr.err tr.entries [] Dir.empty hs hd] at hst2
          have h5 : statuses (untar c g.ContentType tr.err ([] ++ addsBeforeDir tr.entries)
              (addAll Dir.empty (regularFiles tr.entries)) []) = [400] := by
            rw [← hst2]
            simp [statuses, responses, List.filterMap_append, Event.response]
          cases he : tr.err with
          | none =>
            rw [he] at h5
            obtain ⟨p, hp1, _, hp3⟩ := responses_pinDir c g.ContentType
              ([] ++ addsBeforeDir tr.entries) (addAll Dir.empty (regularFiles tr.entries))
            have h6 : statuses (pinDir c g.ContentType ([] ++ addsBeforeDir tr.entries)
                (addAll Dir.empty (regularFiles tr.entries))) = [400] := h5
            rw [statuses, hp1] at h6
            exact hp3 (by simpa using h6)
          | some e =>
            rw [he] at h5
            have h6 : [500] = [400] := h5
            simp at h6
    · intro op hop
      rw [hops2] at hop
      exact mem_addsBeforeDir tr.entries op hop

/-- C4, amended, on requests that fail early, and on the archive a.txt, b.txt,
a directory. -/
theorem pin_early_error_ops_witness :
    storeOps (pin exCafe ⟨"Bearer forged", "application/gzip", "", Except.error "x"⟩) = [] ∧
      storeOps (pin exCafe ⟨"Bearer good", "text/plain", "", Except.error "x"⟩) = [] ∧
      storeOps (pin exCafe ⟨"Bearer good", "application/gzip", "", Except.error "x"⟩) = [] ∧
      storeOps (pin exCafe (exGzip ⟨[exFileA, exFileB, exDir], none⟩)) =
        [StoreOp.AddFileToDirectory "a.txt" "hi", StoreOp.AddFileToDirectory "b.txt" "bye"] :=
  ⟨(pin_early_error_ops exCafe
      ⟨"Bearer forged", "application/gzip", "", Except.error "x"⟩).1 (by decide),
    (pin_early_error_ops exCafe ⟨"Bearer good", "text/plain", "", Except.error "x"⟩).2.1
      (by decide) (by decide) (by decide),
    (pin_early_error_ops exCafe ⟨"Bearer good", "application/gzip", "", Except.error "x"⟩).2.2.1
      (by decide) rfl "x" rfl,
    ((pin_early_error_ops exCafe (exGzip ⟨[exFileA, exFileB, exDir], none⟩)).2.2.2
      (by decide) rfl ⟨[exFileA, exFileB, exDir], none⟩ rfl (by decide)).2.1⟩

/-! ## The pin handler: the status of a failure -/

theorem responses_map_store (l : List StoreOp) (t : List Event) :
    responses (l.map Event.store ++ t) = responses t := by
  induction l with
  | nil => rfl
  | cons op l ih => exact ih

theorem responses_pin_noDir (c : Cafe) (g : Request) (tr : TarStream)
    (hauth : authenticated c g) (hct : g.ContentType = "application/gzip")
    (hgz : g.gzip = Except.ok tr) (hs : addsSucceed c [] tr.entries = true)
    (hd : hasDir tr.entries = false) :
    pin c g =
        Event.switchContentType g.ContentType :: Event.NewDirectory ::
          ((addsBeforeDir tr.entries).map Event.store ++
            untar c g.ContentType tr.err (addsBeforeDir tr.entries)
              (addAll Dir.empty (regularFiles tr.entries)) []) ∧
      responses (pin c g) =
        responses (untar c g.ContentType tr.err (addsBeforeDir tr.entries)
          (addAll Dir.empty (regularFiles tr.entries)) []) := by
  have h1 : pin c g =
      Event.switchContentType g.ContentType :: Event.NewDirectory ::
        ((addsBeforeDir tr.entries).map Event.store ++
          untar c g.ContentType tr.err (addsBeforeDir tr.entries)
            (addAll Dir.empty (regularFiles tr.entries)) []) := by
    rw [pin_gzip c g tr hauth hct hgz,
      untar_noDir c g.ContentType tr.err tr.entries [] Dir.empty hs hd]
    rfl
  refine ⟨h1, ?_⟩
  rw [h1]
  exact responses_map_store _ _

/-- C5 as stated fails: a tar stream whose next entry cannot be read is
answered with status 500, not with 400. -/
theorem pin_tar_next_error_status :
    authenticated exCafe (exGzip ⟨[exFileA], some "unexpected EOF"⟩) ∧
      responses (pin exCafe (exGzip ⟨[exFileA], some "unexpected EOF"⟩)) =
        [(500, [("error", "unexpected EOF")])] ∧
      statuses (pin exCafe (exGzip ⟨[exFileA], some "unexpected EOF"⟩)) ≠ [400] := by
  decide

/-- C5, amended: for an authenticated request, an unrecognized content type, a
gzip header that cannot be read and a nested directory entry are answered
with status 400; a tar stream whose next entry cannot be read is answered
with status 500; and every failure of the store (adding a file, finalizing
the directory, pinning the directory, pinning the raw stream) is answered
with status 500.  The loop reaches the end of the stream when the archive has
no directory entry and every add succeeds. -/
theorem pin_failure_status (c : Cafe) (g : Request) (hauth : authenticated c g) :
    (g.ContentType ≠ "application/gzip" → g.ContentType ≠ "application/octet-stream" →
        statuses (pin c g) = [400]) ∧
      (g.ContentType = "application/gzip" → ∀ err, g.gzip = Except.error err →
        responses (pin c g) = [(400, [("error", err)])]) ∧
      (g.ContentType = "application/gzip" → ∀ tr, g.gzip = Except.ok tr →
        addsSucceed c [] tr.entries = true → hasDir tr.entries = true →
        statuses (pin c g) = [400]) ∧
      (g.ContentType = "application/gzip" → ∀ tr, g.gzip = Except.ok tr →
        addsSucceed c [] tr.entries = true → hasDir tr.entries = false →
        ∀ err, tr.err = some err → responses (pin c g) = [(500, [("error", err)])]) ∧
      (g.ContentType = "application/gzip" → ∀ tr, g.gzip = Except.ok tr →
        addsSucceed c [] tr.entries = false → statuses (pin c g) = [500]) ∧
      (g.ContentType = "application/gzip" → ∀ tr, g.gzip = Except.ok tr →
        addsSucceed c [] tr.entries = true → hasDir tr.entries = false → tr.err = none →
        ∀ err, c.Ipfs.GetNode (addsBeforeDir tr.entries) = some err →
          responses (pin c g) = [(500, [("error", err)])]) ∧
      (g.ContentType = "application/gzip" → ∀ tr, g.gzip = Except.ok tr →
        addsSucceed c [] tr.entries = true → hasDir tr.entries = false → tr.err = none →
        c.Ipfs.GetNode (addsBeforeDir tr.entries) = none →
        ∀ err, c.Ipfs.PinDirectory (addsBeforeDir tr.entries ++ [StoreOp.GetNode]) = some err →
          responses (pin c g) = [(500, [("error", err)])]) ∧
      (g.ContentType = "application/octet-stream" →
        ∀ err, c.Ipfs.PinData g.Body = Except.error err →
          responses (pin c g) = [(500, [("error", err)])]) := by
  refine ⟨?_, ?_, ?_, ?_, ?_, ?_, ?_, ?_⟩
  · intro hz ho
    rw [pin_bad_type c g hauth hz ho]
    rfl
  · intro hct err hgz
    rw [pin_gzip_error c g err hauth hct hgz]
    rfl
  · intro hct tr hgz hs hd
    have h1 : responses (pin c g) =
        responses (untar c g.ContentType tr.err [] Dir.empty tr.entries) := by
      rw [pin_gzip c g tr hauth hct hgz]
      rfl
    rw [statuses, h1, untar_dir c g.ContentType tr.err tr.entries [] Dir.empty hs hd]
    rfl
  · intro hct tr hgz hs hd err he
    rw [(responses_pin_noDir c g tr hauth hct hgz hs hd).2, he]
    rfl
  · intro hct tr hgz hs
    have h1 : responses (pin c g) =
        responses (untar c g.ContentType tr.err [] Dir.empty tr.entries) := by
      rw [pin_gzip c g tr hauth hct hgz]
      rfl
    obtain ⟨msg, hm⟩ := untar_addFails c g.ContentType tr.err tr.entries [] Dir.empty hs
    rw [statuses, h1, hm]
    rfl
  · intro hct tr hgz hs hd he err hg
    rw [(responses_pin_noDir c g tr hauth hct hgz hs hd).2, he]
    simp only [untar, pinDir, hg]
    rfl
  · intro hct tr hgz hs hd he hg err hp
    rw [(responses_pin_noDir c g tr hauth hct hgz hs hd).2, he]
    simp only [untar, pinDir, hg, hp]
    rfl
  · intro hct err hp
    have hz : g.ContentType ≠ "application/gzip" := by
      rw [hct]
      decide
    rw [pin_of_authenticated c g hauth]
    unfold dispatch
    rw [if_neg hz, if_pos hct, hp]
    rfl

/-- C5, amended, on one request for each kind of failure. -/
theorem pin_failure_status_witness :
    statuses (pin exCafe ⟨"Bearer good", "text/plain", "", Except.error "x"⟩) = [400] ∧
      responses (pin exCafe ⟨"Bearer good", "application/gzip", "", Except.error "x"⟩) =
        [(400, [("error", "x")])] ∧
      statuses (pin exCafe (exGzip ⟨[exFileA, exDir], none⟩)) = [400] ∧
      responses (pin exCafe (exGzip ⟨[exFileA], some "unexpected EOF"⟩)) =
        [(500, [("error", "unexpected EOF")])] ∧
      statuses (pin exCafeAddFails (exGzip ⟨[exFileA, exDir], none⟩)) = [500] ∧
      responses (pin ⟨exValidate, exStore none (some "no node") none none⟩
          (exGzip ⟨[exFileA], none⟩)) = [(500, [("error", "no node")])] ∧
      responses (pin ⟨exValidate, exStore none none (some "no pin") none⟩
          (exGzip ⟨[exFileA], none⟩)) = [(500, [("error", "no pin")])] ∧
      responses (pin ⟨exValidate, exStore none none none (some "no data")⟩
          ⟨"Bearer good", "application/octet-stream", "abc", Except.error "x"⟩) =
        [(500, [("error", "no data")])] :=
  ⟨(pin_failure_status exCafe ⟨"Bearer good", "text/plain", "", Except.error "x"⟩
      (by decide)).1 (by decide) (by decide),
    (pin_failure_status exCafe ⟨"Bearer good", "application/gzip", "", Except.error "x"⟩
      (by decide)).2.1 rfl "x" rfl,
    (pin_failure_status exCafe (exGzip ⟨[exFileA, exDir], none⟩)
      (by decide)).2.2.1 rfl ⟨[exFileA, exDir], none⟩ rfl (by decide) (by decide),
    (pin_failure_status exCafe (exGzip ⟨[exFileA], some "unexpected EOF"⟩)
      (by decide)).2.2.2.1 rfl ⟨[exFileA], some "unexpected EOF"⟩ rfl (by decide) (by decide)
      "unexpected EOF" rfl,
    (pin_failure_status exCafeAddFails (exGzip ⟨[exFileA, exDir], none⟩)
      (by decide)).2.2.2.2.1 rfl ⟨[exFileA, exDir], none⟩ rfl (by decide),
    (pin_failure_status ⟨exValidate, exStore none (some "no node") none none⟩
      (exGzip ⟨[exFileA], none⟩) (by decide)).2.2.2.2.2.1 rfl ⟨[exFileA], none⟩ rfl
      (by decide) (by decide) rfl "no node" rfl,
    (pin_failure_status ⟨exValidate, exStore none none (some "no pin") none⟩
      (exGzip ⟨[exFileA], none⟩) (by decide)).2.2.2.2.2.2.1 rfl ⟨[exFileA], none⟩ rfl
      (by decide) (by decide) rfl rfl "no pin" rfl,
    (pin_failure_status ⟨exValidate, exStore none none none (some "no data")⟩
      ⟨"Bearer good", "application/octet-stream", "abc", Except.error "x"⟩
      (by decide)).2.2.2.2.2.2.2 rfl "no data" rfl⟩

/-! ## The pin handler: archives of regular files -/

theorem pin_upload (c : Cafe) (g : Request) (es : List Entry)
    (hreg : ∀ e ∈ es, e.header.Typeflag = TypeReg) (h : uploadSucceeds c g es) :
    pin c g =
      Event.switchContentType g.ContentType :: Event.NewDirectory ::
        (es.map (fun e => Event.store e.addOp) ++
          [Event.store StoreOp.GetNode, Event.store StoreOp.PinDirectory,
            Event.Debugf "pinned request with content type %s: %s"
              [g.ContentType, (c.Ipfs.nodeCid (lastContent es)).hashB58],
            Event.JSON 201 [("id", (c.Ipfs.nodeCid (lastContent es)).hashB58)]]) := by
  obtain ⟨hauth, hct, hgz, hs, hg, hp⟩ := h
  obtain ⟨h1, h2, h3⟩ := addsBeforeDir_regular es hreg
  have h4 := (responses_pin_noDir c g ⟨es, none⟩ hauth hct hgz hs h3).1
  rw [h1] at hg hp
  rw [h4]
  simp only [untar, pinDir, hg, hp, h1, h2, addAll_empty, shipIt, List.map_map]
  rfl

/-- C6: for an authenticated application/gzip request over a valid archive
made only of regular-file entries, when no store operation of the run fails,
the handler adds every entry in archive order under its archive name, then
finalizes and pins the directory, and its one response is status 201 with
the id of the finalized directory; that directory maps each name to the
content of the last entry with that name; and two such uploads whose archives
give the same content to every name receive the same response, hence the
same id, whatever the order of their entries. -/
theorem pin_regular_archive (c : Cafe) (g g2 : Request) (es es2 : List Entry)
    (hreg : ∀ e ∈ es, e.header.Typeflag = TypeReg) (h : uploadSucceeds c g es)
    (hreg2 : ∀ e ∈ es2, e.header.Typeflag = TypeReg) (h2 : uploadSucceeds c g2 es2) :
    storeOps (pin c g) =
        es.map (fun e => StoreOp.AddFileToDirectory e.header.Name e.content) ++
          [StoreOp.GetNode, StoreOp.PinDirectory] ∧
      responses (pin c g) =
        [(201, [("id", (c.Ipfs.nodeCid (addAll Dir.empty es)).hashB58)])] ∧
      (∀ name, addAll Dir.empty es name = lastContent es name) ∧
      ((∀ name, lastContent es name = lastContent es2 name) →
        responses (pin c g) = responses (pin c g2)) := by
  have hresp : ∀ (g : Request) (es : List Entry), (∀ e ∈ es, e.header.Typeflag = TypeReg) →
      uploadSucceeds c g es →
      responses (pin c g) = [(201, [("id", (c.Ipfs.nodeCid (lastContent es)).hashB58)])] := by
    intro g es hreg h
    rw [pin_upload c g es hreg h]
    have h5 := responses_map_store (es.map Entry.addOp)
      [Event.store StoreOp.GetNode, Event.store StoreOp.PinDirectory,
        Event.Debugf "pinned request with content type %s: %s"
          [g.ContentType, (c.Ipfs.nodeCid (lastContent es)).hashB58],
        Event.JSON 201 [("id", (c.Ipfs.nodeCid (lastContent es)).hashB58)]]
    rw [List.map_map] at h5
    exact h5
  refine ⟨?_, ?_, ?_, ?_⟩
  · rw [pin_upload c g es hreg h]
    have h5 := storeOps_map_store (es.map Entry.addOp)
      [Event.store StoreOp.GetNode, Event.store StoreOp.PinDirectory,
        Event.Debugf "pinned request with content type %s: %s"
          [g.ContentType, (c.Ipfs.nodeCid (lastContent es)).hashB58],
        Event.JSON 201 [("id", (c.Ipfs.nodeCid (lastContent es)).hashB58)]]
    rw [List.map_map] at h5
    exact h5
  · rw [addAll_empty]
    exact hresp g es hreg h
  · intro name
    rw [addAll_empty]
  · intro hsame
    have hfun : lastContent es = lastContent es2 := funext hsame
    rw [hresp g es hreg h, hresp g2 es2 hreg2 h2, hfun]

/-- C6 on two uploads: a.txt (old content), b.txt, a.txt again, and b.txt then
a.txt; both give "hi" to a.txt and "bye" to b.txt and get the same id. -/
theorem pin_regular_archive_witness :
    responses (pin exCafe (exGzip ⟨[⟨⟨"a.txt", TypeReg⟩, "old"⟩, exFileB, exFileA], none⟩)) =
        [(201, [("id", "hi/bye")])] ∧
      responses (pin exCafe (exGzip ⟨[⟨⟨"a.txt", TypeReg⟩, "old"⟩, exFileB, exFileA], none⟩)) =
        responses (pin exCafe (exGzip ⟨[exFileB, exFileA], none⟩)) :=
  have hw := pin_regular_archive exCafe
    (exGzip ⟨[⟨⟨"a.txt", TypeReg⟩, "old"⟩, exFileB, exFileA], none⟩)
    (exGzip ⟨[exFileB, exFileA], none⟩)
    [⟨⟨"a.txt", TypeReg⟩, "old"⟩, exFileB, exFileA] [exFileB, exFileA]
    (by decide) ⟨by decide, rfl, rfl, by decide, rfl, rfl⟩
    (by decide) ⟨by decide, rfl, rfl, by decide, rfl, rfl⟩
  ⟨hw.2.1, hw.2.2.2 (by
    intro name
    simp only [lastContent, List.reverse_cons, List.reverse_nil, List.nil_append,
      List.cons_append, List.find?_cons, exFileA, exFileB]
    by_cases ha : "a.txt" = name
    · simp [ha]
    · by_cases hb : "b.txt" = name
      · simp [hb]
      · simp [ha, hb])⟩

/-! ## The pin handler: skipped entries -/

/-- C7: entries that are neither regular files nor directories are skipped:
for every request, the run of the handler on the request with all such
entries removed from its archive is the run on the request itself, so the
responses and the sequence of store operations are the same. -/
theorem pin_skips_other_entries (c : Cafe) (g : Request) :
    pin c (dropOther g) = pin c g ∧
      responses (pin c (dropOther g)) = responses (pin c g) ∧
      storeOps (pin c (dropOther g)) = storeOps (pin c g) := by
  have h : pin c (dropOther g) = pin c g := by
    cases hg : g.gzip with
    | error err =>
      have hd : dropOther g = g := by
        unfold dropOther
        rw [hg]
      rw [hd]
    | ok tr =>
      have hd : dropOther g = ⟨g.Authorization, g.ContentType, g.Body,
          Except.ok ⟨tr.entries.filter Entry.isRegOrDir, tr.err⟩⟩ := by
        unfold dropOther
        rw [hg]
      rw [hd]
      unfold pin dispatch
      simp only [hg, untar_filter]
  exact ⟨h, by rw [h], by rw [h]⟩

/-! ## The pin handler: one response, one of id and error -/

theorem responses_of_pinSucceeds (c : Cafe) (g : Request) (h : pinSucceeds c g) :
    ∃ id, responses (pin c g) = [(201, [("id", id)])] := by
  obtain ⟨hauth, h | h⟩ := h
  · obtain ⟨hct, es, hgz, hd, hs, hg, hp⟩ := h
    refine ⟨(c.Ipfs.nodeCid (addAll Dir.empty (regularFiles es))).hashB58, ?_⟩
    rw [(responses_pin_noDir c g ⟨es, none⟩ hauth hct hgz hs hd).2]
    simp only [untar, pinDir, hg, hp]
    rfl
  · obtain ⟨hct, id, hp⟩ := h
    have hz : g.ContentType ≠ "application/gzip" := by
      rw [hct]
      decide
    refine ⟨id.hashB58, ?_⟩
    rw [pin_of_authenticated c g hauth]
    unfold dispatch
    rw [if_neg hz, if_pos hct, hp]
    rfl

theorem pinSucceeds_of_created (c : Cafe) (g : Request)
    (h : statuses (pin c g) = [201]) : pinSucceeds c g := by
  by_cases hauth : authenticated c g
  · by_cases hz : g.ContentType = "application/gzip"
    · cases hgz : g.gzip with
      | error err =>
        rw [pin_gzip_error c g err hauth hz hgz] at h
        have h5 : [400] = [201] := h
        simp at h5
      | ok tr =>
        have h1 : responses (pin c g) =
            responses (untar c g.ContentType tr.err [] Dir.empty tr.entries) := by
          rw [pin_gzip c g tr hauth hz hgz]
          rfl
        cases hs : addsSucceed c [] tr.entries with
        | false =>
          obtain ⟨msg, hm⟩ := untar_addFails c g.ContentType tr.err tr.entries [] Dir.empty hs
          rw [statuses, h1, hm] at h
          simp at h
        | true =>
          cases hd : hasDir tr.entries with
          | true =>
            rw [statuses, h1, untar_dir c g.ContentType tr.err tr.entries [] Dir.empty hs hd] at h
            simp at h
          | false =>
            rw [statuses, (responses_pin_noDir c g tr hauth hz hgz hs hd).2] at h
            cases he : tr.err with
            | some e =>
              rw [he] at h
              have h5 : [500] = [201] := h
              simp at h5
            | none =>
              rw [he] at h
              cases hg : c.Ipfs.GetNode (addsBeforeDir tr.entries) with
              | some e =>
                simp only [untar, pinDir, hg] at h
                have h5 : [500] = [201] := h
                simp at h5
              | none =>
                cases hp : c.Ipfs.PinDirectory (addsBeforeDir tr.entries ++ [StoreOp.GetNode]) with
                | some e =>
                  simp only [untar, pinDir, hg, hp] at h
                  have h5 : [500] = [201] := h
                  simp at h5
                | none =>
                  have htr : tr = ⟨tr.entries, none⟩ := by
                    cases tr
                    simp only [TarStream.mk.injEq, true_and]
                    exact he
                  rw [htr] at hgz
                  exact ⟨hauth, Or.inl ⟨hz, tr.entries, hgz, hd, hs, hg, hp⟩⟩
    · by_cases ho : g.ContentType = "application/octet-stream"
      · cases hp : c.Ipfs.PinData g.Body with
        | error err =>
          rw [pin_of_authenticated c g hauth] at h
          unfold dispatch at h
          rw [if_neg hz, if_pos ho, hp] at h
          have h5 : [500] = [201] := h
          simp at h5
        | ok id => exact ⟨hauth, Or.inr ⟨ho, id, hp⟩⟩
      · rw [pin_bad_type c g hauth hz ho] at h
        have h5 : [400] = [201] := h
        simp at h5
  · rcases pin_of_unauthenticated c g hauth with h1 | h1
    · rw [h1] at h
      have h5 : [401] = [201] := h
      simp at h5
    · rw [h1] at h
      have h5 : [403] = [201] := h
      simp at h5

/-- C8: every run of the handler, whatever the token validation and the store
return, writes exactly one response, and that response has exactly one of id
and error: when the run succeeds (the request is authenticated, its input is
read to the end without a directory entry or it is a raw stream, and no store
operation fails) the response is the id alone with status 201; on every
failure, that is on every other run, it is the error alone with a status of
400 or above. -/
theorem pin_one_pin_result (c : Cafe) (g : Request) :
    (∃ code obj, responses (pin c g) = [(code, obj)] ∧
        ((code = 201 ∧ ∃ id, obj = PinResponse.toJSON ⟨some id, none⟩) ∨
          (400 ≤ code ∧ ∃ msg, obj = PinResponse.toJSON ⟨none, some msg⟩)) ∧
        ((obj.lookup "id").isSome = !(obj.lookup "error").isSome)) ∧
      (pinSucceeds c g →
        ∃ id, responses (pin c g) = [(201, PinResponse.toJSON ⟨some id, none⟩)]) ∧
      (¬ pinSucceeds c g →
        ∃ code msg, 400 ≤ code ∧
          responses (pin c g) = [(code, PinResponse.toJSON ⟨none, some msg⟩)]) := by
  refine ⟨?_, responses_of_pinSucceeds c g, ?_⟩
  · obtain ⟨p, hp, hs⟩ := responses_pin c g
    refine ⟨p.1, p.2, hp, ?_⟩
    rcases hs with hs | hs | hs
    · rcases hs with ⟨h1, id, h2⟩ | ⟨h1, msg, h2⟩
      · refine ⟨Or.inl ⟨h1, id, h2⟩, ?_⟩
        rw [h2]
        rfl
      · refine ⟨Or.inr ⟨by omega, msg, h2⟩, ?_⟩
        rw [h2]
        rfl
    · rw [hs]
      exact ⟨Or.inr ⟨by decide, "unauthorized", rfl⟩, by decide⟩
    · rw [hs]
      exact ⟨Or.inr ⟨by decide, "forbidden", rfl⟩, by decide⟩
  · intro hfail
    obtain ⟨p, hp, hs⟩ := responses_pin c g
    have hne : p.1 ≠ 201 := by
      intro h201
      apply hfail
      apply pinSucceeds_of_created
      rw [statuses, hp, ← h201]
      rfl
    obtain ⟨code, obj⟩ := p
    rcases hs with hs | hs | hs
    · rcases hs with ⟨h1, _⟩ | ⟨h1, msg, h2⟩
      · exact absurd h1 hne
      · have h3 : obj = PinResponse.toJSON ⟨none, some msg⟩ := h2
        have h4 : code = 400 ∨ code = 500 := h1
        refine ⟨code, msg, by omega, ?_⟩
        rw [hp, h3]
    · exact ⟨401, "unauthorized", by decide, by rw [hp, hs]; rfl⟩
    · exact ⟨403, "forbidden", by decide, by rw [hp, hs]; rfl⟩

/-- C8 on a successful upload (a.txt, a link, b.txt), on a raw stream, and on
four failures: a forged token, text/plain, an archive with a directory entry,
a store on which adding a file fails. -/
theorem pin_one_pin_result_witness :
    (∃ id, responses (pin exCafe (exGzip ⟨[exFileA, exLink, exFileB], none⟩)) =
        [(201, PinResponse.toJSON ⟨some id, none⟩)]) ∧
      (∃ id, responses (pin exCafe ⟨"Bearer good", "application/octet-stream", "abc",
        Except.error "x"⟩) = [(201, PinResponse.toJSON ⟨some id, none⟩)]) ∧
      (∃ code msg, 400 ≤ code ∧
        responses (pin exCafe ⟨"Bearer forged", "application/gzip", "", Except.error "x"⟩) =
          [(code, PinResponse.toJSON ⟨none, some msg⟩)]) ∧
      (∃ code msg, 400 ≤ code ∧
        responses (pin exCafe ⟨"Bearer good", "text/plain", "", Except.error "x"⟩) =
          [(code, PinResponse.toJSON ⟨none, some msg⟩)]) ∧
      (∃ code msg, 400 ≤ code ∧
        responses (pin exCafe (exGzip ⟨[exFileA, exDir], none⟩)) =
          [(code, PinResponse.toJSON ⟨none, some msg⟩)]) ∧
      (∃ code msg, 400 ≤ code ∧
        responses (pin exCafeAddFails (exGzip ⟨[exFileA], none⟩)) =
          [(code, PinResponse.toJSON ⟨none, some msg⟩)]) := by
  have ok1 : pinSucceeds exCafe (exGzip ⟨[exFileA, exLink, exFileB], none⟩) :=
    ⟨by decide, Or.inl ⟨rfl, [exFileA, exLink, exFileB], rfl, by decide, by decide, rfl, rfl⟩⟩
  have ok2 : pinSucceeds exCafe
      ⟨"Bearer good", "application/octet-stream", "abc", Except.error "x"⟩ :=
    ⟨by decide, Or.inr ⟨rfl, ⟨"abc"⟩, rfl⟩⟩
  have ko1 : ¬ pinSucceeds exCafe
      ⟨"Bearer forged", "application/gzip", "", Except.error "x"⟩ :=
    fun h => absurd h.1 (by decide)
  have ko2 : ¬ pinSucceeds exCafe ⟨"Bearer good", "text/plain", "", Except.error "x"⟩ :=
    fun h => h.2.elim (fun h1 => absurd h1.1 (by decide)) (fun h1 => absurd h1.1 (by decide))
  have ko3 : ¬ pinSucceeds exCafe (exGzip ⟨[exFileA, exDir], none⟩) := by
    rintro ⟨_, ⟨_, es, hgz, hd, _⟩ | ⟨hct, _⟩⟩
    · cases hgz
      exact absurd hd (by decide)
    · exact absurd hct (by decide)
  have ko4 : ¬ pinSucceeds exCafeAddFails (exGzip ⟨[exFileA], none⟩) := by
    rintro ⟨_, ⟨_, es, hgz, _, hs, _⟩ | ⟨hct, _⟩⟩
    · cases hgz
      exact absurd hs (by decide)
    · exact absurd hct (by decide)
  exact
    ⟨(pin_one_pin_result exCafe (exGzip ⟨[exFileA, exLink, exFileB], none⟩)).2.1 ok1,
      (pin_one_pin_result exCafe
        ⟨"Bearer good", "application/octet-stream", "abc", Except.error "x"⟩).2.1 ok2,
      (pin_one_pin_result exCafe
        ⟨"Bearer forged", "application/gzip", "", Except.error "x"⟩).2.2 ko1,
      (pin_one_pin_result exCafe
        ⟨"Bearer good", "text/plain", "", Except.error "x"⟩).2.2 ko2,
      (pin_one_pin_result exCafe (exGzip ⟨[exFileA, exDir], none⟩)).2.2 ko3,
      (pin_one_pin_result exCafeAddFails (exGzip ⟨[exFileA], none⟩)).2.2 ko4⟩

/-! ## The snapshot search handler -/

theorem toInt32_of_fits (n : Int) (h1 : -2 ^ 31 ≤ n) (h2 : n < 2 ^ 31) : toInt32 n = n := by
  unfold toInt32
  omega

theorem Opts.get_absent (opts : Opts) (key : String) (h : ∀ v, (key, v) ∉ opts) :
    opts.get key = "" := by
  induction opts with
  | nil => rfl
  | cons p rest ih =>
    obtain ⟨k, v⟩ := p
    unfold Opts.get
    by_cases hk : k = key
    · exact absurd (List.mem_cons_self _ _) (hk ▸ h v)
    · rw [if_neg hk]
      exact ih fun w hw => h w (List.mem_cons_of_mem _ hw)

/-- C9 as stated fails: with the option wait=60, an integer, the handler hands
the wait budget 60 to the network search, which is greater than 10. -/
theorem search_wait_sixty :
    Atoi "60" = some 60 ∧
      dispatchedWait (searchThreadSnapshots exApi (Except.ok [("wait", "60")])) = some 60 ∧
      dispatchedWait (searchThreadSnapshots exApi (Except.ok [("wait", "60")])) ≠
        some (min 60 10) := by
  decide

/-- C9, amended: when the options can be read, the handler hands the network
search the wait budget 5 when the `wait` option is absent or `strconv.Atoi`
rejects it, and otherwise the integer value of the option converted to
`int32`, which is the value itself when it fits `int32`; the handler applies
no upper bound of its own. -/
theorem search_wait (a : Api) (opts : Opts) :
    ((∀ v, ("wait", v) ∉ opts) →
        dispatchedWait (searchThreadSnapshots a (Except.ok opts)) = some 5) ∧
      (Atoi (opts.get "wait") = none →
        dispatchedWait (searchThreadSnapshots a (Except.ok opts)) = some 5) ∧
      (∀ n, Atoi (opts.get "wait") = some n →
        dispatchedWait (searchThreadSnapshots a (Except.ok opts)) = some (toInt32 n)) ∧
      (∀ n, Atoi (opts.get "wait") = some n → -2 ^ 31 ≤ n → n < 2 ^ 31 →
        dispatchedWait (searchThreadSnapshots a (Except.ok opts)) = some n) := by
  have h0 : dispatchedWait (searchThreadSnapshots a (Except.ok opts)) =
      some (toInt32 (searchWait opts)) := rfl
  rw [h0]
  refine ⟨?_, ?_, ?_, ?_⟩
  · intro h
    unfold searchWait
    rw [Opts.get_absent opts "wait" h]
    rfl
  · intro h
    unfold searchWait
    rw [h]
    rfl
  · intro n h
    unfold searchWait
    rw [h]
  · intro n h h1 h2
    unfold searchWait
    rw [h, toInt32_of_fits n h1 h2]

/-- C9, amended, on the options: none, wait=soon, wait=4294967297, wait=60. -/
theorem search_wait_witness :
    dispatchedWait (searchThreadSnapshots exApi (Except.ok [("events", "true")])) = some 5 ∧
      dispatchedWait (searchThreadSnapshots exApi (Except.ok [("wait", "soon")])) = some 5 ∧
      dispatchedWait (searchThreadSnapshots exApi (Except.ok [("wait", "4294967297")])) =
        some (toInt32 4294967297) ∧
      dispatchedWait (searchThreadSnapshots exApi (Except.ok [("wait", "60")])) = some 60 :=
  ⟨(search_wait exApi [("events", "true")]).1 (by simp),
    (search_wait exApi [("wait", "soon")]).2.1 (by decide),
    (search_wait exApi [("wait", "4294967297")]).2.2.1 4294967297 (by decide),
    (search_wait exApi [("wait", "60")]).2.2.2 60 (by decide) (by decide) (by decide)⟩

/-- C10 as stated fails: when the options cannot be read the handler answers
through `abort500`, with status 500 and not 400. -/
theorem search_unreadable_opts_status :
    searchThreadSnapshots exApi (Except.error "bad options") =
        [SearchEvent.abort500 "bad options"] ∧
      searchResponses (searchThreadSnapshots exApi (Except.error "bad options")) =
        [(500, "bad options")] ∧
      (searchResponses (searchThreadSnapshots exApi (Except.error "bad options"))).map
        Prod.fst ≠ [400] := by
  decide

/-- C10, amended: when the options cannot be read, the handler answers through
`abort500` (status 500) and does nothing else; when the search dispatch
returns an error, its one response is status 400 with the text of the error;
in neither case is the result presenter started. -/
theorem search_failure (a : Api) (readOpts : Except String Opts) :
    (∀ err, readOpts = Except.error err →
        searchThreadSnapshots a readOpts = [SearchEvent.abort500 err] ∧
          searchResponses (searchThreadSnapshots a readOpts) = [(500, err)] ∧
          presenterStarted (searchThreadSnapshots a readOpts) = false) ∧
      (∀ opts err, readOpts = Except.ok opts →
        a.SearchThreadSnapshots ⟨a.Address⟩ (searchOptions opts) = some err →
        searchResponses (searchThreadSnapshots a readOpts) = [(400, err)] ∧
          presenterStarted (searchThreadSnapshots a readOpts) = false) := by
  refine ⟨?_, ?_⟩
  · intro err h
    rw [h]
    exact ⟨rfl, rfl, rfl⟩
  · intro opts err h he
    rw [h]
    unfold searchThreadSnapshots
    simp only [he]
    exact ⟨rfl, rfl⟩

/-- C10, amended, on a request with unreadable options and on a node whose
search refuses the query. -/
theorem search_failure_witness :
    searchResponses (searchThreadSnapshots exApi (Except.error "bad options")) =
        [(500, "bad options")] ∧
      searchResponses (searchThreadSnapshots exApiRefuses (Except.ok [("wait", "3")])) =
        [(400, "offline")] ∧
      presenterStarted (searchThreadSnapshots exApiRefuses (Except.ok [("wait", "3")])) =
        false :=
  ⟨((search_failure exApi (Except.error "bad options")).1 "bad options" rfl).2.1,
    ((search_failure exApiRefuses (Except.ok [("wait", "3")])).2 [("wait", "3")] "offline"
      rfl rfl).1,
    ((search_failure exApiRefuses (Except.ok [("wait", "3")])).2 [("wait", "3")] "offline"
      rfl rfl).2⟩

end Textile
